import Mathlib

set_option maxRecDepth 4000

namespace Gardener

/-! Section: Character-list utilities used by the version-constraint evaluator. -/

/-- Splits a character list at every occurrence of the separator. -/
def splitOnCharAux (sep : Char) : List Char → List Char → List (List Char)
  | [], acc => [acc.reverse]
  | c :: cs, acc =>
    if c = sep then acc.reverse :: splitOnCharAux sep cs []
    else splitOnCharAux sep cs (c :: acc)

def splitOnChar (sep : Char) (l : List Char) : List (List Char) :=
  splitOnCharAux sep l []

/-- Removes leading and trailing spaces. -/
def trimSpaces (l : List Char) : List Char :=
  ((l.dropWhile (· = ' ')).reverse.dropWhile (· = ' ')).reverse

/-- Parses a non-empty run of decimal digits. -/
def parseNatL (l : List Char) : Option Nat :=
  if l.isEmpty then none
  else if l.all (·.isDigit) then
    some (l.foldl (fun n c => n * 10 + (c.toNat - 48)) 0)
  else none

/-! Section: Version Constraint Evaluator.

Modelled from the spec: the implementation of the version-constraint
evaluator (`pkg/utils/imagevector`) is not part of the source sample; only
its test file is.  The definitions below follow spec sections 4.1 and 6: a
constraint is a comma-separated conjunction of simple constraints, each a
comparison operator (`<`, `<=`, `>`, `>=`, `=`, defaulting to equality)
applied to a version pattern, or a hyphenated inclusive range; version
patterns may leave trailing components unspecified or use `x`/`X`/`*`
wildcards.  A version suffixed with a pre-release/build qualifier is
compared on its release-version prefix (spec 4.1). -/

structure SemVer where
  major : Nat
  minor : Nat
  patch : Nat
  qualifier : Option String
deriving DecidableEq, Repr

/-- Parses a version string: up to three dot-separated numeric release
components (missing components default to 0) followed by an optional
pre-release/build qualifier introduced by the first `-` or `+`. -/
def parseVersionL (l : List Char) : Option SemVer :=
  let t := trimSpaces l
  let rel := t.takeWhile (fun c => c != '-' && c != '+')
  let rest := t.drop rel.length
  let qual := if rest.isEmpty then none else some (String.mk rest)
  match splitOnChar '.' rel with
  | [a] => (parseNatL a).map (fun x => ⟨x, 0, 0, qual⟩)
  | [a, b] => do
    let x ← parseNatL a
    let y ← parseNatL b
    pure ⟨x, y, 0, qual⟩
  | [a, b, c] => do
    let x ← parseNatL a
    let y ← parseNatL b
    let z ← parseNatL c
    pure ⟨x, y, z, qual⟩
  | _ => none

def parseVersion (s : String) : Option SemVer :=
  parseVersionL s.data

inductive CompOp
  | lt
  | le
  | gt
  | ge
  | eq
deriving DecidableEq, Repr

/-- A version pattern occurring in a constraint; `none` components are
unspecified or wildcards. -/
structure VersionPattern where
  major : Option Nat
  minor : Option Nat
  patch : Option Nat
deriving DecidableEq, Repr

/-- One pattern component: digits, or a `x`/`X`/`*` wildcard. -/
def parsePatComp (l : List Char) : Option (Option Nat) :=
  match l with
  | ['x'] => some none
  | ['X'] => some none
  | ['*'] => some none
  | _ => (parseNatL l).map some

def parsePattern (l : List Char) : Option VersionPattern :=
  match splitOnChar '.' l with
  | [a] => (parsePatComp a).map (fun x => ⟨x, none, none⟩)
  | [a, b] => do
    let x ← parsePatComp a
    let y ← parsePatComp b
    pure ⟨x, y, none⟩
  | [a, b, c] => do
    let x ← parsePatComp a
    let y ← parsePatComp b
    let z ← parsePatComp c
    pure ⟨x, y, z⟩
  | _ => none

/-- Recognizes a leading comparison operator; equality is the default. -/
def parseOp : List Char → CompOp × List Char
  | '<' :: '=' :: rest => (.le, rest)
  | '>' :: '=' :: rest => (.ge, rest)
  | '=' :: '=' :: rest => (.eq, rest)
  | '<' :: rest => (.lt, rest)
  | '>' :: rest => (.gt, rest)
  | '=' :: rest => (.eq, rest)
  | l => (.eq, l)

/-- Splits a hyphenated range `a - b` at the first ` - ` occurrence. -/
def splitHyphenAux : List Char → List Char → Option (List Char × List Char)
  | [], _ => none
  | ' ' :: '-' :: ' ' :: rest, acc => some (acc.reverse, rest)
  | c :: cs, acc => splitHyphenAux cs (c :: acc)

def splitHyphen (l : List Char) : Option (List Char × List Char) :=
  splitHyphenAux l []

/-- Parses one comma-separated constraint item into simple constraints:
either a hyphenated inclusive range (spec 6) or an operator-prefixed
pattern. -/
def parseSimpleItem (l : List Char) : Option (List (CompOp × VersionPattern)) :=
  let t := trimSpaces l
  match splitHyphen t with
  | some (a, b) => do
    let pa ← parsePattern (trimSpaces a)
    let pb ← parsePattern (trimSpaces b)
    pure [(.ge, pa), (.le, pb)]
  | none =>
    let (op, rest) := parseOp t
    (parsePattern (trimSpaces rest)).map (fun p => [(op, p)])

/-- Parses a full constraint expression: a comma-separated conjunction. -/
def parseConstraint (s : String) : Option (List (CompOp × VersionPattern)) :=
  ((splitOnChar ',' s.data).mapM parseSimpleItem).map List.flatten

def tripleOf (v : SemVer) : Nat × Nat × Nat :=
  (v.major, v.minor, v.patch)

def fillPat (p : VersionPattern) : Nat × Nat × Nat :=
  (p.major.getD 0, p.minor.getD 0, p.patch.getD 0)

def tripleLt (a b : Nat × Nat × Nat) : Bool :=
  Nat.blt a.1 b.1 ||
    (a.1 == b.1 && (Nat.blt a.2.1 b.2.1 ||
      (a.2.1 == b.2.1 && Nat.blt a.2.2 b.2.2)))

def tripleLe (a b : Nat × Nat × Nat) : Bool :=
  tripleLt a b || a == b

/-- Equality pattern match: every specified component must agree. -/
def matchPat (p : VersionPattern) (t : Nat × Nat × Nat) : Bool :=
  (match p.major with | none => true | some m => m == t.1) &&
  (match p.minor with | none => true | some m => m == t.2.1) &&
  (match p.patch with | none => true | some m => m == t.2.2)

def evalSimple (sc : CompOp × VersionPattern) (t : Nat × Nat × Nat) : Bool :=
  match sc.1 with
  | .eq => matchPat sc.2 t
  | .lt => tripleLt t (fillPat sc.2)
  | .le => tripleLe t (fillPat sc.2)
  | .gt => tripleLt (fillPat sc.2) t
  | .ge => tripleLe (fillPat sc.2) t

/-- Modelled from the spec: `satisfies(constraint, version)` (spec 4.1).
Evaluation compares on the release-version prefix, so a pre-release/build
qualifier on the version does not affect the result.  An expression or
version that does not parse is treated as not satisfied (parse failures
are construction-time errors per spec 4.1 and never reach evaluation). -/
def satisfies (c v : String) : Bool :=
  match parseConstraint c, parseVersion v with
  | some cons, some ver => cons.all (fun sc => evalSimple sc (tripleOf ver))
  | _, _ => false

/-- Modelled from the spec and the repository's test file: a constraint is
considered satisfied when either side is absent.  The test
"single entry, match with runtime wildcard" (part_001:342-345) queries an
entry carrying a concrete `runtimeVersion` constraint with no runtime
version supplied and expects a match, so an absent query version acts as
a wildcard satisfying every constraint. -/
def checkConstraint (c v : Option String) : Bool :=
  match c, v with
  | some cs, some vs => satisfies cs vs
  | _, _ => true

/-- Modelled from the spec: the Evaluator's three-level specificity scale
(spec 4.1), ordered `UNCONSTRAINED < RANGE < EXACT`. -/
inductive Specificity
  | unconstrained
  | range
  | exact
deriving DecidableEq, Repr

def Specificity.degree : Specificity → Nat
  | .unconstrained => 0
  | .range => 1
  | .exact => 2

/-- An exact-literal constraint: a single literal version with an optional
explicit equality operator, semantically equal to the queried version
(spec 4.1). -/
def isExactLiteral (c v : String) : Bool :=
  match parseConstraint c, parseVersion v with
  | some [(CompOp.eq, pat)], some ver =>
    match pat.major, pat.minor, pat.patch, ver.qualifier with
    | some a, some b, some c2, none =>
      a == ver.major && b == ver.minor && c2 == ver.patch
    | _, _, _, _ => false
  | _, _ => false

/-- Modelled from the spec: `specificity(constraint, version)` (spec 4.1).
An absent constraint is `UNCONSTRAINED`; so is an absent query version
(the constraint is then satisfied only as a wildcard).  A satisfied
constraint is `EXACT` when it is an exact literal equal to the query, and
`RANGE` otherwise. -/
def specificity (c v : Option String) : Specificity :=
  match c, v with
  | none, _ => .unconstrained
  | some _, none => .unconstrained
  | some cs, some vs => if isExactLiteral cs vs then .exact else .range

/-! Section: Data model (spec 3). -/

/-- Modelled from the spec: one catalog entry (spec 3, `ImageSource`). -/
structure ImageSource where
  name : String
  repository : String
  tag : Option String
  runtimeVersion : Option String
  targetVersion : Option String
  architectures : List String
deriving DecidableEq, Repr

/-- Modelled from the spec: the resolved output (spec 3, `Image`). -/
structure Image where
  name : String
  repository : String
  tag : Option String
deriving DecidableEq, Repr

/-- Modelled from the spec: a catalog is an ordered sequence of entries. -/
abbrev ImageVector := List ImageSource

/-- Query parameters of `findImage` (spec 4.3): optional runtime version,
target version and architecture. -/
structure FindOptions where
  runtimeVersion : Option String
  targetVersion : Option String
  architecture : Option String
deriving DecidableEq, Repr

/-- Modelled from the spec: the architecture filter (spec 4.2). -/
def archMatches (archs : List String) (arch : Option String) : Bool :=
  archs.isEmpty ||
    (match arch with
     | none => false
     | some a => archs.contains a)

/-- Modelled from the spec: `entry.toImage(targetVersion?)` (spec 4.3 step
7): a set tag is used verbatim; otherwise a supplied target version
synthesizes `"v" + targetVersion`; otherwise the tag stays unset. -/
def toImage (s : ImageSource) (targetVersion : Option String) : Image :=
  ⟨s.name, s.repository,
    match s.tag with
    | some t => some t
    | none => targetVersion.map (fun v => "v" ++ v)⟩

/-- Resolution failure (spec 4.3/7): a typed not-found error carrying the
queried name and, for diagnostics, the query parameters. -/
structure NotFoundError where
  name : String
  opts : FindOptions
deriving DecidableEq, Repr

/-- The candidate-admission predicate of `findImage` (spec 4.3 steps 1-3):
name equality, architecture filter, and both version constraints. -/
def admits (o : FindOptions) (name : String) (s : ImageSource) : Bool :=
  s.name == name &&
  archMatches s.architectures o.architecture &&
  checkConstraint s.runtimeVersion o.runtimeVersion &&
  checkConstraint s.targetVersion o.targetVersion

/-- The surviving candidates of a `findImage` query, in catalog order. -/
def survivors (v : ImageVector) (name : String) (o : FindOptions) : List ImageSource :=
  v.filter (admits o name)

/-- The specificity pair of a candidate (spec 4.3 step 5): runtime
specificity first, target specificity second, as degrees on the
three-level scale. -/
def rankOf (o : FindOptions) (s : ImageSource) : Nat × Nat :=
  ((specificity s.runtimeVersion o.runtimeVersion).degree,
   (specificity s.targetVersion o.targetVersion).degree)

/-- Strict lexicographic comparison of specificity pairs: runtime
specificity first, target specificity as tie-break. -/
def specLt (p q : Nat × Nat) : Bool :=
  Nat.blt p.1 q.1 || (p.1 == q.1 && Nat.blt p.2 q.2)

/-- One selection step: keep the current best unless the next candidate
ranks at least as high (so later, identically-ranked entries win, spec 4.3
step 6). -/
def pickStep (o : FindOptions) (best x : ImageSource) : ImageSource :=
  if specLt (rankOf o x) (rankOf o best) then best else x

/-- Selects the highest-ranked candidate, the last one on ties. -/
def pickBest (o : FindOptions) : List ImageSource → Option ImageSource
  | [] => none
  | c :: cs => some (cs.foldl (pickStep o) c)

/-- The catalog entry selected by a `findImage` query, if any. -/
def findImageSource (v : ImageVector) (name : String) (o : FindOptions) : Option ImageSource :=
  pickBest o (survivors v name o)

/-- Modelled from the spec: `findImage` (spec 4.3).  Filters the catalog
(steps 1-3), fails with `NotFoundError` when nothing survives (step 4),
otherwise ranks by specificity with last-wins tie-break (steps 5-6) and
produces the image (step 7). -/
def FindImage (v : ImageVector) (name : String) (o : FindOptions) : Except NotFoundError Image :=
  match findImageSource v name o with
  | some s => .ok (toImage s o.targetVersion)
  | none => .error ⟨name, o⟩

/-! Section: Merge Engine (spec 4.4). -/

/-- Modelled from the spec: the matching key of the merge engine, equality
of `name` and `runtimeVersionConstraint` (spec 4.4). -/
def keyMatch (a b : ImageSource) : Bool :=
  a.name == b.name && a.runtimeVersion == b.runtimeVersion

def hasMatch (result : List ImageSource) (o : ImageSource) : Bool :=
  result.any (fun e => keyMatch e o)

/-- Replaces the first key-matching entry in place. -/
def replaceFirst (o : ImageSource) : List ImageSource → List ImageSource
  | [] => []
  | e :: es => if keyMatch e o then o :: es else e :: replaceFirst o es

/-- Modelled from the spec: one merge step (spec 4.4).  A matching
override entry with a set tag replaces the matched entry in place; with an
unset tag it is discarded; a non-matching entry is appended at the end. -/
def mergeOne (result : List ImageSource) (o : ImageSource) : List ImageSource :=
  if hasMatch result o then
    match o.tag with
    | some _ => replaceFirst o result
    | none => result
  else result ++ [o]

/-- Modelled from the spec: `merge(base, override)` (spec 4.4) processes
override entries in order against a running result initialized to a copy
of the base catalog. -/
def Merge (base override : ImageVector) : ImageVector :=
  override.foldl mergeOne base

/-! Section: Value Projector (spec 4.6). -/

/-- Checks whether the second list is an initial segment of the first. -/
def listStartsWith : List Char → List Char → Bool
  | _, [] => true
  | [], _ :: _ => false
  | c :: cs, d :: ds => c == d && listStartsWith cs ds

/-- Modelled from the spec: `imageString(image)` (spec 4.6): the
repository alone without a tag; a digest reference `repository + "@" +
tag` when the tag begins with the digest marker `sha256:`; a mutable tag
reference `repository + ":" + tag` otherwise. -/
def imageString (img : Image) : String :=
  match img.tag with
  | none => img.repository
  | some t =>
    if listStartsWith t.data "sha256:".data then img.repository ++ "@" ++ t
    else img.repository ++ ":" ++ t

/-- Modelled from the spec: `imageMapToValues` (spec 4.6) applies
`imageString` to every value of a name-to-image map, preserving keys.  The
map is modelled as an association list. -/
def imageMapToValues (m : List (String × Image)) : List (String × String) :=
  m.map (fun kv => (kv.1, imageString kv.2))

/-! Section: Concrete catalog entries mirroring the repository's test fixtures
(part_001:101-248). -/

def greaterEquals16Smaller18 : String := ">= 1.6, < 1.8"

def greaterEquals18 : String := ">= 1.8"

def equals117 : String := "= 1.17.0"

def image1Src1 : ImageSource :=
  ⟨"image1", "repo1", some "tag1", some greaterEquals16Smaller18, none, []⟩

def image1Src1Arm64 : ImageSource :=
  { image1Src1 with architectures := ["arm64"] }

def image1Src2 : ImageSource :=
  ⟨"image1", "repo1", some "tag1", some greaterEquals18, none, []⟩

def image1Src3 : ImageSource :=
  ⟨"image1", "repo2", some "tag1", some greaterEquals16Smaller18, none, []⟩

def image1Src4 : ImageSource :=
  ⟨"image1", "repo1", some "tag2", some greaterEquals16Smaller18, none, []⟩

def image1Src5 : ImageSource :=
  ⟨"image1", "repo1", some "tag1", none, none, []⟩

def image1Src5Arm64 : ImageSource :=
  { image1Src5 with architectures := ["arm64"] }

def image1Src5Wildcard : ImageSource :=
  { image1Src5 with architectures := ["arm64", "amd64"] }

def image1Src6 : ImageSource :=
  ⟨"image1", "repo1", none, some greaterEquals16Smaller18, none, []⟩

def image2Src1 : ImageSource :=
  ⟨"image2", "repo2", some "tag2", some greaterEquals16Smaller18, none, []⟩

def image3Src1 : ImageSource :=
  ⟨"image3", "repo3", none, none, none, []⟩

def image4Src1 : ImageSource :=
  ⟨"image4", "repo4", some "tag1", none, some greaterEquals16Smaller18, []⟩

def image4Src1Arm64 : ImageSource :=
  { image4Src1 with architectures := ["arm64"] }

def image4Src2 : ImageSource :=
  ⟨"image4", "repo4", some "tag2", none, some "1.13", []⟩

def image4Src3 : ImageSource :=
  ⟨"image4", "repo4", some "tag3", none, none, []⟩

def image4Src4 : ImageSource :=
  ⟨"image4", "repo4", some "tag4", some greaterEquals16Smaller18, some "1.13", []⟩

def image4Src5 : ImageSource :=
  ⟨"image4", "repo4", some "tag5", none, some equals117, []⟩

def image4Src5Arm64 : ImageSource :=
  { image4Src5 with architectures := ["arm64"] }

def image4Src6 : ImageSource :=
  ⟨"image4", "repo4", some "tag6", none, some "1.14.x", []⟩

def image4Src6Arm64 : ImageSource :=
  { image4Src6 with architectures := ["arm64"] }

def image4Src7 : ImageSource :=
  ⟨"image4", "repo4", some "tag7", none, some "1.14.2", []⟩

def image4Src7Arm64 : ImageSource :=
  { image4Src7 with architectures := ["arm64"] }

/-- Query options with no parameter supplied. -/
def noOpts : FindOptions := ⟨none, none, none⟩

/-- An entry whose target constraint is an exact literal but whose runtime
constraint is absent. -/
def exactTargetEntry : ImageSource :=
  ⟨"x", "repoA", some "tA", none, some "1.14.2", []⟩

/-- An entry whose target constraint is a wildcard range and whose runtime
constraint is a satisfied range. -/
def rangeTargetEntry : ImageSource :=
  ⟨"x", "repoB", some "tB", some ">= 1.6", some "1.14.x", []⟩

/-- A query supplying both a runtime and a target version. -/
def mixedQuery : FindOptions := ⟨some "1.7.0", some "1.14.2", none⟩

end Gardener

namespace Gardener

theorem specLt_iff (p q : Nat × Nat) :
    specLt p q = true ↔ (p.1 < q.1 ∨ (p.1 = q.1 ∧ p.2 < q.2)) := by
  simp [specLt, Nat.blt_eq, beq_iff_eq, Bool.or_eq_true, Bool.and_eq_true]

theorem specLt_false_iff (p q : Nat × Nat) :
    specLt p q = false ↔ (q.1 < p.1 ∨ (q.1 = p.1 ∧ q.2 ≤ p.2)) := by
  rw [← Bool.not_eq_true, specLt_iff]
  omega

theorem specLt_irrefl (p : Nat × Nat) : specLt p p = false := by
  rw [specLt_false_iff]
  omega

theorem specLt_asymm (p q : Nat × Nat) (h : specLt p q = true) :
    specLt q p = false := by
  rw [specLt_iff] at h
  rw [specLt_false_iff]
  omega

theorem specLt_false_trans (p q r : Nat × Nat)
    (h1 : specLt p q = false) (h2 : specLt q r = false) :
    specLt p r = false := by
  rw [specLt_false_iff] at h1 h2 ⊢
  omega

theorem pickStep_cases (o : FindOptions) (a c : ImageSource) :
    pickStep o a c = a ∨ pickStep o a c = c := by
  unfold pickStep
  split
  · exact Or.inl rfl
  · exact Or.inr rfl

theorem foldl_pickStep_mem (o : FindOptions) (l : List ImageSource) :
    ∀ a, l.foldl (pickStep o) a ∈ a :: l := by
  induction l with
  | nil => intro a; simp
  | cons c cs ih =>
    intro a
    rw [List.foldl_cons]
    have h := ih (pickStep o a c)
    rcases List.mem_cons.mp h with h1 | h1
    · rcases pickStep_cases o a c with hp | hp
      · rw [h1, hp]
        exact List.mem_cons_self _ _
      · rw [h1, hp]
        exact List.mem_cons_of_mem _ (List.mem_cons_self _ _)
    · exact List.mem_cons_of_mem _ (List.mem_cons_of_mem _ h1)

theorem foldl_pickStep_max (o : FindOptions) (l : List ImageSource) :
    ∀ a x, x ∈ a :: l →
      specLt (rankOf o (l.foldl (pickStep o) a)) (rankOf o x) = false := by
  induction l with
  | nil =>
    intro a x hx
    simp at hx
    subst hx
    exact specLt_irrefl _
  | cons c cs ih =>
    intro a x hx
    rw [List.foldl_cons]
    -- the step keeps the better of a and c
    have hstep_a : specLt (rankOf o (pickStep o a c)) (rankOf o a) = false := by
      unfold pickStep
      split
      · exact specLt_irrefl _
      · rename_i h
        exact Bool.eq_false_iff.mpr h
    have hstep_c : specLt (rankOf o (pickStep o a c)) (rankOf o c) = false := by
      unfold pickStep
      split
      · rename_i h
        exact specLt_asymm _ _ h
      · exact specLt_irrefl _
    have hres : specLt (rankOf o (cs.foldl (pickStep o) (pickStep o a c)))
        (rankOf o (pickStep o a c)) = false :=
      ih (pickStep o a c) _ (List.mem_cons_self _ _)
    rcases List.mem_cons.mp hx with h1 | h1
    · subst h1
      exact specLt_false_trans _ _ _ hres hstep_a
    · rcases List.mem_cons.mp h1 with h2 | h2
      · subst h2
        exact specLt_false_trans _ _ _ hres hstep_c
      · exact ih (pickStep o a c) x (List.mem_cons_of_mem _ h2)

theorem foldl_pickStep_keep (o : FindOptions) (l : List ImageSource) (s : ImageSource)
    (h : ∀ y ∈ l, specLt (rankOf o y) (rankOf o s) = true) :
    l.foldl (pickStep o) s = s := by
  induction l with
  | nil => rfl
  | cons y ys ih =>
    rw [List.foldl_cons]
    have hy : pickStep o s y = s := by
      unfold pickStep
      rw [h y (List.mem_cons_self _ _)]
      rfl
    rw [hy]
    exact ih (fun y hy => h y (List.mem_cons_of_mem _ hy))

theorem foldl_pickStep_reach (o : FindOptions) (s : ImageSource) (l₂ : List ImageSource)
    (hl₂ : ∀ y ∈ l₂, specLt (rankOf o y) (rankOf o s) = true) :
    ∀ (l₁ : List ImageSource) a,
      specLt (rankOf o s) (rankOf o a) = false →
      (∀ x ∈ l₁, specLt (rankOf o s) (rankOf o x) = false) →
      (l₁ ++ s :: l₂).foldl (pickStep o) a = s := by
  intro l₁
  induction l₁ with
  | nil =>
    intro a ha _
    rw [List.nil_append, List.foldl_cons]
    have : pickStep o a s = s := by
      unfold pickStep
      rw [ha]
      rfl
    rw [this]
    exact foldl_pickStep_keep o l₂ s hl₂
  | cons c l₁' ih =>
    intro a ha hl₁
    rw [List.cons_append, List.foldl_cons]
    have hc : specLt (rankOf o s) (rankOf o c) = false :=
      hl₁ c (List.mem_cons_self _ _)
    have hstep : specLt (rankOf o s) (rankOf o (pickStep o a c)) = false := by
      rcases pickStep_cases o a c with hp | hp <;> rw [hp]
      · exact ha
      · exact hc
    exact ih (pickStep o a c) hstep (fun x hx => hl₁ x (List.mem_cons_of_mem _ hx))

theorem findImageSource_spec (v : ImageVector) (name : String) (o : FindOptions)
    (s : ImageSource) (h : findImageSource v name o = some s) :
    s ∈ survivors v name o ∧
      ∀ x ∈ survivors v name o, specLt (rankOf o s) (rankOf o x) = false := by
  unfold findImageSource at h
  cases hs : survivors v name o with
  | nil => rw [hs] at h; exact absurd h (by simp [pickBest])
  | cons c cs =>
    rw [hs] at h
    simp only [pickBest, Option.some.injEq] at h
    subst h
    exact ⟨foldl_pickStep_mem o cs c, foldl_pickStep_max o cs c⟩

theorem survivors_eq_nil_of_name (v : ImageVector) (name : String) (o : FindOptions)
    (h : ∀ s ∈ v, s.name ≠ name) : survivors v name o = [] := by
  refine List.filter_eq_nil_iff.mpr ?_
  intro s hs
  unfold admits
  simp [h s hs]

end Gardener

namespace Gardener

theorem checkConstraint_none (c : Option String) : checkConstraint c none = true := by
  cases c <;> rfl

/-- C1 (counterexample): as stated, the claim fails.  Both entries survive
the query, one carries an exact-literal target constraint equal to the
queried target version and the other a wildcard target range the query
also satisfies, yet `findImage` returns the range-target entry because its
runtime specificity is higher and runtime specificity is compared first. -/
theorem C1_counterexample :
    survivors [exactTargetEntry, rangeTargetEntry] "x" mixedQuery =
      [exactTargetEntry, rangeTargetEntry] ∧
    specificity exactTargetEntry.targetVersion mixedQuery.targetVersion = Specificity.exact ∧
    specificity rangeTargetEntry.targetVersion mixedQuery.targetVersion = Specificity.range ∧
    FindImage [exactTargetEntry, rangeTargetEntry] "x" mixedQuery =
      Except.ok (toImage rangeTargetEntry mixedQuery.targetVersion) ∧
    toImage rangeTargetEntry mixedQuery.targetVersion ≠
      toImage exactTargetEntry mixedQuery.targetVersion := by
  refine ⟨rfl, rfl, rfl, rfl, ?_⟩
  decide

/-- C1 (amended): candidates are ranked by the pair (runtimeSpecificity,
targetSpecificity) on the three-level scale EXACT > RANGE > UNCONSTRAINED,
comparing runtime specificity first and target specificity as tie-break:
the selected candidate is a surviving candidate whose pair is
lexicographically maximal.  When the candidates' runtime specificities are
equal — in particular for entries differing only in their target
constraint — the exact-literal target candidate beats a range/wildcard
one, as in the repository's exact-target test (part_001:521-532). -/
theorem C1_specificity_ranking :
    (Specificity.unconstrained.degree < Specificity.range.degree ∧
      Specificity.range.degree < Specificity.exact.degree) ∧
    (∀ p q : Nat × Nat, specLt p q = true ↔ (p.1 < q.1 ∨ (p.1 = q.1 ∧ p.2 < q.2))) ∧
    (∀ (v : ImageVector) (name : String) (o : FindOptions) (s : ImageSource),
      findImageSource v name o = some s →
        s ∈ survivors v name o ∧
        (∀ x ∈ survivors v name o, specLt (rankOf o s) (rankOf o x) = false) ∧
        (∀ x ∈ survivors v name o, (rankOf o x).1 ≤ (rankOf o s).1) ∧
        (∀ x ∈ survivors v name o,
          (rankOf o x).1 = (rankOf o s).1 → (rankOf o x).2 ≤ (rankOf o s).2)) ∧
    FindImage [image4Src6, image4Src7, image4Src6Arm64] "image4" ⟨none, some "1.14.2", none⟩ =
      Except.ok ⟨"image4", "repo4", some "tag7"⟩ ∧
    FindImage [image4Src7, image4Src6] "image4" ⟨none, some "1.14.2", none⟩ =
      Except.ok ⟨"image4", "repo4", some "tag7"⟩ := by
  refine ⟨⟨by decide, by decide⟩, specLt_iff, ?_, rfl, rfl⟩
  intro v name o s h
  obtain ⟨hmem, hmax⟩ := findImageSource_spec v name o s h
  refine ⟨hmem, hmax, ?_, ?_⟩
  · intro x hx
    have h2 := hmax x hx
    rw [specLt_false_iff] at h2
    omega
  · intro x hx heq
    have h2 := hmax x hx
    rw [specLt_false_iff] at h2
    omega

/-- C1 witness: the ranking theorem applied to a concrete two-candidate
catalog where the exact-literal target entry wins. -/
theorem C1_specificity_ranking_witness :
    image4Src7 ∈ survivors [image4Src6, image4Src7] "image4" ⟨none, some "1.14.2", none⟩ ∧
    specLt (rankOf ⟨none, some "1.14.2", none⟩ image4Src7)
      (rankOf ⟨none, some "1.14.2", none⟩ image4Src6) = false :=
  ⟨(C1_specificity_ranking.2.2.1 [image4Src6, image4Src7] "image4"
      ⟨none, some "1.14.2", none⟩ image4Src7 rfl).1,
   (C1_specificity_ranking.2.2.1 [image4Src6, image4Src7] "image4"
      ⟨none, some "1.14.2", none⟩ image4Src7 rfl).2.1 image4Src6 (by decide)⟩

/-- C2: when several candidates are tied at the maximal specificity pair,
the one occurring last in catalog order is returned: whenever the
surviving candidates decompose as l₁ ++ s :: l₂ with s ranked at least as
high as every survivor and everything after s ranked strictly lower, the
query returns s. -/
theorem C2_tie_break_last (v : ImageVector) (name : String) (o : FindOptions)
    (l₁ : List ImageSource) (s : ImageSource) (l₂ : List ImageSource)
    (hs : survivors v name o = l₁ ++ s :: l₂)
    (hmax : ∀ x ∈ survivors v name o, specLt (rankOf o s) (rankOf o x) = false)
    (hl₂ : ∀ y ∈ l₂, specLt (rankOf o y) (rankOf o s) = true) :
    FindImage v name o = Except.ok (toImage s o.targetVersion) := by
  have hfind : findImageSource v name o = some s := by
    unfold findImageSource
    rw [hs]
    cases l₁ with
    | nil =>
      rw [List.nil_append]
      simp only [pickBest, Option.some.injEq]
      exact foldl_pickStep_keep o l₂ s hl₂
    | cons c l₁' =>
      rw [List.cons_append]
      simp only [pickBest, Option.some.injEq]
      refine foldl_pickStep_reach o s l₂ hl₂ l₁' c ?_ ?_
      · refine hmax c ?_
        rw [hs]
        exact List.mem_append_left _ (List.mem_cons_self _ _)
      · intro x hx
        refine hmax x ?_
        rw [hs]
        exact List.mem_append_left _ (List.mem_cons_of_mem _ hx)
  unfold FindImage
  rw [hfind]

/-- C2 witness: the tied-specificity test of the repository
(part_001:467-470): two identically-ranked candidates survive and the
later one is returned. -/
theorem C2_tie_break_last_witness :
    FindImage [image1Src5, image1Src1, image1Src1Arm64, image1Src5Wildcard] "image1"
        ⟨some "1.8.0", none, some "arm64"⟩ =
      Except.ok (toImage image1Src5Wildcard none) :=
  C2_tie_break_last _ _ _ [image1Src5] image1Src5Wildcard [] rfl (by decide) (by decide)

/-- C3 (counterexample): an entry with a present concrete
`runtimeVersionConstraint` is not excluded by a query that supplies no
runtime version — it survives and is returned, matching the repository's
test "single entry, match with runtime wildcard" (part_001:342-345). -/
theorem C3_counterexample :
    image1Src1.runtimeVersion = some ">= 1.6, < 1.8" ∧
    survivors [image1Src1] "image1" noOpts = [image1Src1] ∧
    FindImage [image1Src1] "image1" noOpts =
      Except.ok ⟨"image1", "repo1", some "tag1"⟩ :=
  ⟨rfl, rfl, rfl⟩

/-- C3 (amended): an absent query version acts as a wildcard satisfying
every version constraint, so when neither a runtime nor a target version
is supplied the candidate set is exactly the set of entries passing the
name and architecture filters. -/
theorem C3_absent_version_is_wildcard :
    (∀ c : Option String, checkConstraint c none = true) ∧
    (∀ (v : ImageVector) (name : String) (o : FindOptions),
      o.runtimeVersion = none → o.targetVersion = none →
      survivors v name o =
        v.filter (fun s => s.name == name && archMatches s.architectures o.architecture)) := by
  refine ⟨checkConstraint_none, ?_⟩
  intro v name o hr ht
  unfold survivors
  apply List.filter_congr
  intro s _
  unfold admits
  rw [hr, ht, checkConstraint_none, checkConstraint_none, Bool.and_true, Bool.and_true]

/-- C3 witness: the amended statement applied to the concrete catalog of
the counterexample. -/
theorem C3_absent_version_is_wildcard_witness :
    checkConstraint (some ">= 1.6, < 1.8") none = true ∧
    survivors [image1Src1] "image1" noOpts = [image1Src1] :=
  ⟨C3_absent_version_is_wildcard.1 (some ">= 1.6, < 1.8"),
   (C3_absent_version_is_wildcard.2 [image1Src1] "image1" noOpts rfl rfl).trans rfl⟩

end Gardener

namespace Gardener

/-- C4: the architecture filter admits an entry exactly when its
architecture set is empty or the query supplies a member of the set; in
particular an entry with a non-empty architecture set is never selected by
a query without an architecture, as in the repository's tests
(part_001:346-353). -/
theorem C4_architecture_filter :
    (∀ (archs : List String) (a : Option String),
      archMatches archs a = true ↔ (archs = [] ∨ ∃ s, a = some s ∧ s ∈ archs)) ∧
    (∀ (v : ImageVector) (name : String) (o : FindOptions) (s : ImageSource),
      o.architecture = none → findImageSource v name o = some s →
      s.architectures = []) ∧
    FindImage [image1Src1Arm64] "image1" noOpts = Except.error ⟨"image1", noOpts⟩ ∧
    FindImage [image1Src1Arm64] "image1" ⟨none, none, some "arm64"⟩ =
      Except.ok ⟨"image1", "repo1", some "tag1"⟩ := by
  refine ⟨?_, ?_, rfl, rfl⟩
  · intro archs a
    cases a with
    | none => cases archs <;> simp [archMatches]
    | some s =>
      cases archs with
      | nil => simp [archMatches]
      | cons x xs =>
        simp [archMatches]
  · intro v name o s ha h
    have hmem := (findImageSource_spec v name o s h).1
    have hadm := (List.mem_filter.mp hmem).2
    unfold admits at hadm
    rw [ha] at hadm
    simp only [Bool.and_eq_true] at hadm
    have harch := hadm.1.1.2
    cases hx : s.architectures with
    | nil => rfl
    | cons y ys =>
      rw [hx] at harch
      simp [archMatches] at harch

/-- C4 witness: the filter theorem applied to the concrete catalog of the
"single entry, match with runtime wildcard" test: the selected entry has
an empty architecture set, and a supplied member architecture is
admitted. -/
theorem C4_architecture_filter_witness :
    image1Src1.architectures = [] ∧ archMatches ["arm64"] (some "arm64") = true :=
  ⟨C4_architecture_filter.2.1 [image1Src1] "image1" noOpts image1Src1 rfl rfl,
   (C4_architecture_filter.1 ["arm64"] (some "arm64")).mpr
     (Or.inr ⟨"arm64", rfl, by decide⟩)⟩

/-- C5: `findImage` fails exactly when no candidate survives the name,
architecture and version-constraint filters, its only error is a
`NotFoundError` carrying the queried name (and the query parameters), and
a name with no catalog entry always yields that error. -/
theorem C5_not_found (v : ImageVector) (name : String) (o : FindOptions) :
    (∀ e : NotFoundError,
      FindImage v name o = Except.error e ↔
        (survivors v name o = [] ∧ e = ⟨name, o⟩)) ∧
    ((∃ img, FindImage v name o = Except.ok img) ↔ survivors v name o ≠ []) ∧
    ((∀ s ∈ v, s.name ≠ name) → FindImage v name o = Except.error ⟨name, o⟩) := by
  refine ⟨?_, ?_, ?_⟩
  · intro e
    cases hl : survivors v name o with
    | nil =>
      have hF : FindImage v name o = Except.error ⟨name, o⟩ := by
        unfold FindImage findImageSource
        rw [hl]
        rfl
      rw [hF]
      constructor
      · intro h
        exact ⟨rfl, (Except.error.inj h).symm⟩
      · intro h
        rw [h.2]
    | cons c cs =>
      have hF : ∃ img, FindImage v name o = Except.ok img := by
        unfold FindImage findImageSource
        rw [hl]
        exact ⟨_, rfl⟩
      obtain ⟨img, hF⟩ := hF
      rw [hF]
      constructor
      · intro h
        exact absurd h (by simp)
      · intro h
        exact absurd h.1 (by simp)
  · cases hl : survivors v name o with
    | nil =>
      have hF : FindImage v name o = Except.error ⟨name, o⟩ := by
        unfold FindImage findImageSource
        rw [hl]
        rfl
      rw [hF]
      simp
    | cons c cs =>
      have hF : ∃ img, FindImage v name o = Except.ok img := by
        unfold FindImage findImageSource
        rw [hl]
        exact ⟨_, rfl⟩
      obtain ⟨img, hF⟩ := hF
      rw [hF]
      simp
  · intro h
    have hl := survivors_eq_nil_of_name v name o h
    unfold FindImage findImageSource
    rw [hl]
    rfl

/-- C5 witness: the not-found theorem applied to the empty catalog
("no entries, no match", part_001:337-340). -/
theorem C5_not_found_witness :
    FindImage [] "image1" noOpts = Except.error ⟨"image1", noOpts⟩ :=
  (C5_not_found [] "image1" noOpts).2.2 (by simp)

/-- C7: `toImage` uses a set tag verbatim independently of the target
version; with an unset tag it synthesizes `"v" + targetVersion` when a
target version is supplied and leaves the tag unset otherwise
(spec 4.3 step 7; part_001:634-677). -/
theorem C7_toImage_tag :
    (∀ (e : ImageSource) (t : String) (v1 v2 : Option String), e.tag = some t →
      toImage e v1 = toImage e v2 ∧ (toImage e v1).tag = some t) ∧
    (∀ (e : ImageSource) (v : String), e.tag = none →
      (toImage e (some v)).tag = some ("v" ++ v)) ∧
    (∀ e : ImageSource, e.tag = none → (toImage e none).tag = none) ∧
    toImage ⟨"foo", "repo", some "v1", none, none, []⟩ (some "1.8.0") =
      ⟨"foo", "repo", some "v1"⟩ ∧
    toImage ⟨"foo", "repo", none, none, none, []⟩ (some "1.8.0") =
      ⟨"foo", "repo", some "v1.8.0"⟩ := by
  refine ⟨?_, ?_, ?_, rfl, rfl⟩
  · intro e t v1 v2 h
    constructor <;> simp [toImage, h]
  · intro e v h
    simp [toImage, h]
  · intro e h
    simp [toImage, h]

/-- C7 witness: the tag rules applied to concrete entries with a set and
an unset tag. -/
theorem C7_toImage_tag_witness :
    toImage image1Src1 (some "9.9.9") = toImage image1Src1 none ∧
    (toImage image1Src1 (some "9.9.9")).tag = some "tag1" ∧
    (toImage image3Src1 (some "1.8.0")).tag = some "v1.8.0" ∧
    (toImage image3Src1 none).tag = none :=
  ⟨(C7_toImage_tag.1 image1Src1 "tag1" (some "9.9.9") none rfl).1,
   (C7_toImage_tag.1 image1Src1 "tag1" (some "9.9.9") none rfl).2,
   C7_toImage_tag.2.1 image3Src1 "1.8.0" rfl,
   C7_toImage_tag.2.2.1 image3Src1 rfl⟩

/-- C8: `imageString` returns the repository alone without a tag, a
digest reference with `@` when the tag begins with `sha256:`, and a `:`
reference otherwise; `imageMapToValues` applies exactly `imageString` to
every value while preserving the key set (part_001:589-629, 680-710). -/
theorem C8_image_string_projection :
    (∀ img : Image, img.tag = none → imageString img = img.repository) ∧
    (∀ (img : Image) (t : String), img.tag = some t →
      listStartsWith t.data ("sha256:".data) = true →
      imageString img = img.repository ++ "@" ++ t) ∧
    (∀ (img : Image) (t : String), img.tag = some t →
      listStartsWith t.data ("sha256:".data) = false →
      imageString img = img.repository ++ ":" ++ t) ∧
    (∀ m : List (String × Image), (imageMapToValues m).map Prod.fst = m.map Prod.fst) ∧
    (∀ (m : List (String × Image)) (k : String),
      (imageMapToValues m).lookup k = (m.lookup k).map imageString) ∧
    imageString ⟨"my-image", "my-repo", some "sha256:fooooooo0oooobar"⟩ =
      "my-repo@sha256:fooooooo0oooobar" ∧
    imageString ⟨"my-image", "my-repo", some "1.2.3"⟩ = "my-repo:1.2.3" ∧
    imageString ⟨"my-image", "my-repo", none⟩ = "my-repo" ∧
    imageMapToValues
        [("foo", ⟨"baz", "baz", some "barbaz"⟩), ("bar", ⟨"baz", "foo", none⟩)] =
      [("foo", "baz:barbaz"), ("bar", "foo")] := by
  refine ⟨?_, ?_, ?_, ?_, ?_, rfl, rfl, rfl, rfl⟩
  · intro img h
    simp [imageString, h]
  · intro img t h hsha
    simp [imageString, h, hsha]
  · intro img t h hsha
    simp [imageString, h, hsha]
  · intro m
    induction m with
    | nil => rfl
    | cons kv m ih => simp [imageMapToValues] at ih ⊢
  · intro m k
    induction m with
    | nil => rfl
    | cons kv m ih =>
      obtain ⟨a, b⟩ := kv
      simp only [imageMapToValues] at ih ⊢
      cases hk : k == a <;> simp [List.lookup, hk, ih]

/-- C8 witness: the digest and mutable-tag rules applied at concrete
images, discharging the tag hypotheses. -/
theorem C8_image_string_projection_witness :
    imageString ⟨"img", "repo", some "sha256:abc"⟩ = "repo" ++ "@" ++ "sha256:abc" ∧
    imageString ⟨"img", "repo", some "1.2.3"⟩ = "repo" ++ ":" ++ "1.2.3" ∧
    imageString ⟨"img", "repo", none⟩ = "repo" :=
  ⟨C8_image_string_projection.2.1 ⟨"img", "repo", some "sha256:abc"⟩ "sha256:abc" rfl rfl,
   C8_image_string_projection.2.2.1 ⟨"img", "repo", some "1.2.3"⟩ "1.2.3" rfl rfl,
   C8_image_string_projection.1 ⟨"img", "repo", none⟩ rfl⟩

theorem satisfies_qualifier_invariant (c v1 v2 : String) (m n p : Nat) (q : String)
    (h1 : parseVersion v1 = some ⟨m, n, p, some q⟩)
    (h2 : parseVersion v2 = some ⟨m, n, p, none⟩) :
    satisfies c v1 = satisfies c v2 := by
  unfold satisfies
  rw [h1, h2]
  cases hc : parseConstraint c <;> rfl

/-- C9: a pre-release/build qualifier on the queried version does not
affect constraint evaluation — satisfaction is decided on the
release-version prefix — so a suffixed version satisfies a range
constraint exactly when its release prefix does; e.g. `1.6.4-foo.5`
satisfies `>= 1.6, < 1.8` (part_001:368-371). -/
theorem C9_qualifier_release_comparison :
    (∀ (c v1 v2 : String) (m n p : Nat) (q : String),
      parseVersion v1 = some ⟨m, n, p, some q⟩ →
      parseVersion v2 = some ⟨m, n, p, none⟩ →
      satisfies c v1 = satisfies c v2) ∧
    (∀ (c v1 v2 : String) (m n p : Nat) (q : String),
      parseVersion v1 = some ⟨m, n, p, some q⟩ →
      parseVersion v2 = some ⟨m, n, p, none⟩ →
      satisfies c v2 = true → satisfies c v1 = true) ∧
    parseVersion "1.6.4-foo.5" = some ⟨1, 6, 4, some "-foo.5"⟩ ∧
    satisfies ">= 1.6, < 1.8" "1.6.4-foo.5" = true ∧
    satisfies ">= 1.6, < 1.8" "1.6.4" = true := by
  refine ⟨satisfies_qualifier_invariant, ?_, rfl, rfl, rfl⟩
  intro c v1 v2 m n p q h1 h2 hsat
  rw [satisfies_qualifier_invariant c v1 v2 m n p q h1 h2]
  exact hsat

/-- C9 witness: the invariance applied to the suffixed version of the
repository's test and its release prefix. -/
theorem C9_qualifier_release_comparison_witness :
    satisfies ">= 1.6, < 1.8" "1.6.4-foo.5" = satisfies ">= 1.6, < 1.8" "1.6.4" :=
  C9_qualifier_release_comparison.1 ">= 1.6, < 1.8" "1.6.4-foo.5" "1.6.4"
    1 6 4 "-foo.5" rfl rfl

end Gardener

namespace Gardener

theorem replaceFirst_length (o : ImageSource) (r : List ImageSource) :
    (replaceFirst o r).length = r.length := by
  induction r with
  | nil => rfl
  | cons e es ih =>
    unfold replaceFirst
    split <;> simp [ih]

theorem replaceFirst_append (o : ImageSource) (r₁ : List ImageSource) (e : ImageSource)
    (r₂ : List ImageSource) (h₁ : ∀ x ∈ r₁, keyMatch x o = false)
    (he : keyMatch e o = true) :
    replaceFirst o (r₁ ++ e :: r₂) = r₁ ++ o :: r₂ := by
  induction r₁ with
  | nil =>
    simp only [List.nil_append]
    unfold replaceFirst
    rw [he]
    simp
  | cons x xs ih =>
    simp only [List.cons_append]
    unfold replaceFirst
    rw [h₁ x (List.mem_cons_self _ _)]
    simp only [Bool.false_eq_true, if_false, List.cons.injEq, true_and]
    exact ih (fun y hy => h₁ y (List.mem_cons_of_mem _ hy))

theorem replaceFirst_getElem (o : ImageSource) (r : List ImageSource) (i : Nat)
    (e : ImageSource) (h : r[i]? = some e) (hk : keyMatch e o = false) :
    (replaceFirst o r)[i]? = some e := by
  induction r generalizing i with
  | nil => simp at h
  | cons x xs ih =>
    cases i with
    | zero =>
      simp only [List.getElem?_cons_zero, Option.some.injEq] at h
      subst h
      unfold replaceFirst
      rw [hk]
      simp
    | succ n =>
      simp only [List.getElem?_cons_succ] at h
      unfold replaceFirst
      split
      · simpa using h
      · simpa using ih n h

theorem mergeOne_getElem (r : List ImageSource) (o : ImageSource) (i : Nat)
    (e : ImageSource) (h : r[i]? = some e) (hk : keyMatch e o = false) :
    (mergeOne r o)[i]? = some e := by
  have hi : i < r.length := by
    by_contra hge
    rw [List.getElem?_eq_none (Nat.le_of_not_lt hge)] at h
    exact Option.noConfusion h
  unfold mergeOne
  split
  · split
    · exact replaceFirst_getElem o r i e h hk
    · exact h
  · rw [List.getElem?_append, if_pos hi]
    exact h

theorem mergeOne_length_ge (r : List ImageSource) (o : ImageSource) :
    r.length ≤ (mergeOne r o).length := by
  unfold mergeOne
  split
  · split
    · rw [replaceFirst_length]
    · exact Nat.le_refl _
  · simp

/-- C6: the merge engine processes override entries in order against a
running result initialized to the base catalog; entries match on name and
runtime constraint; a matching override entry with a set tag replaces the
matched entry in place in its entirety, one with an unset tag is
discarded, a non-matching entry is appended at the end in override order,
and base entries matched by no override entry are retained unchanged at
their original position (spec 4.4; part_001:299-308). -/
theorem C6_merge_semantics :
    (∀ base : ImageVector, Merge base [] = base) ∧
    (∀ (base : ImageVector) (o : ImageSource) (ov : List ImageSource),
      Merge base (o :: ov) = Merge (mergeOne base o) ov) ∧
    (∀ (r : List ImageSource) (o : ImageSource),
      (∀ e ∈ r, keyMatch e o = false) → mergeOne r o = r ++ [o]) ∧
    (∀ (o : ImageSource) (t : String) (r₁ : List ImageSource) (e : ImageSource)
        (r₂ : List ImageSource),
      o.tag = some t → (∀ x ∈ r₁, keyMatch x o = false) → keyMatch e o = true →
      mergeOne (r₁ ++ e :: r₂) o = r₁ ++ o :: r₂) ∧
    (∀ (r : List ImageSource) (o : ImageSource),
      o.tag = none → (∃ e ∈ r, keyMatch e o = true) → mergeOne r o = r) ∧
    (∀ (base : ImageVector) (ov : List ImageSource) (i : Nat) (e : ImageSource),
      base[i]? = some e → (∀ o ∈ ov, keyMatch e o = false) →
      (Merge base ov)[i]? = some e) ∧
    (∀ (base : ImageVector) (ov : List ImageSource),
      base.length ≤ (Merge base ov).length) ∧
    Merge [image1Src1] [image1Src2] = [image1Src1, image1Src2] ∧
    Merge [image1Src1, image2Src1] [image1Src3, image3Src1] =
      [image1Src3, image2Src1, image3Src1] ∧
    Merge [image1Src1] [image1Src6] = [image1Src1] ∧
    Merge [image1Src1] [image1Src4] = [image1Src4] := by
  refine ⟨fun _ => rfl, fun _ _ _ => rfl, ?_, ?_, ?_, ?_, ?_, rfl, rfl, rfl, rfl⟩
  · intro r o h
    have hm : hasMatch r o = false := by
      unfold hasMatch
      rw [List.any_eq_false]
      intro e he
      simp [h e he]
    unfold mergeOne
    rw [hm]
    simp
  · intro o t r₁ e r₂ ht h₁ he
    have hm : hasMatch (r₁ ++ e :: r₂) o = true := by
      unfold hasMatch
      rw [List.any_eq_true]
      exact ⟨e, List.mem_append_right _ (List.mem_cons_self _ _), he⟩
    unfold mergeOne
    rw [hm, ht]
    simp only [if_true]
    exact replaceFirst_append o r₁ e r₂ h₁ he
  · intro r o ht hex
    have hm : hasMatch r o = true := by
      unfold hasMatch
      rw [List.any_eq_true]
      obtain ⟨e, he, hke⟩ := hex
      exact ⟨e, he, hke⟩
    unfold mergeOne
    rw [hm, ht]
    simp
  · intro base ov
    induction ov generalizing base with
    | nil => intro i e h _; exact h
    | cons o' ov' ih =>
      intro i e h hov
      have h1 : (mergeOne base o')[i]? = some e :=
        mergeOne_getElem base o' i e h (hov o' (List.mem_cons_self _ _))
      exact ih (mergeOne base o') i e h1 (fun o ho => hov o (List.mem_cons_of_mem _ ho))
  · intro base ov
    induction ov generalizing base with
    | nil => exact Nat.le_refl _
    | cons o' ov' ih =>
      exact Nat.le_trans (mergeOne_length_ge base o') (ih (mergeOne base o'))

/-- C6 witness: the merge-step rules applied at the concrete catalogs of
the repository's merge table, discharging the matching hypotheses. -/
theorem C6_merge_semantics_witness :
    mergeOne [image1Src1] image1Src2 = [image1Src1] ++ [image1Src2] ∧
    mergeOne [image1Src1] image1Src4 = [] ++ image1Src4 :: [image1Src1].tail ∧
    mergeOne [image1Src1] image1Src6 = [image1Src1] ∧
    (Merge [image1Src1, image2Src1] [image1Src3, image3Src1])[1]? = some image2Src1 :=
  ⟨C6_merge_semantics.2.2.1 [image1Src1] image1Src2 (by decide),
   C6_merge_semantics.2.2.2.1 image1Src4 "tag2" [] image1Src1 [] rfl (by simp) (by decide),
   C6_merge_semantics.2.2.2.2.1 [image1Src1] image1Src6 rfl
     ⟨image1Src1, List.mem_cons_self _ _, by decide⟩,
   C6_merge_semantics.2.2.2.2.2.1 [image1Src1, image2Src1] [image1Src3, image3Src1]
     1 image2Src1 rfl (by decide)⟩

end Gardener
